/-
Verification development for the liars-tally venue occupancy counter.

The repository derives all of its state from an append-only event table:
a live counter seeds per-gender counts by reducing the fetched rows
(EntryLogger.fetchCurrentCounts, the take-snapshot edge function, and a
guarded later variant), an admin dashboard aggregates the rows into a
fixed 15-minute bucket grid with running totals and peak statistics
(fetchIntervalStats in the dashboard variants), an archiving reset builds
per-interval breakdown rows (the archiving handleReset), and a business
date resolver maps instants to the venue's logical day
(getTodayInToronto, in two variants with different cutover hours).

The definitions below are a shallow embedding of those functions,
translated directly from the TypeScript source.  Timestamps are modelled
as minutes already converted to venue-local (America/Toronto) civil
time; the timezone conversion itself is performed by the platform and is
outside the embedding.  JavaScript's dynamic-key accumulator semantics
(missing key reads give undefined, undefined + n gives NaN) are modelled
explicitly where the source relies on them.
-/
import Mathlib

namespace LiarsTally

/-- Gender values allowed by the entries table check constraint: male and
female people plus the system pseudo-gender used by session markers. -/
inductive Gender where
  | male
  | female
  | system
  deriving DecidableEq

/-- Kind values allowed by the entries table check constraint: entry and
exit events plus the session marker pseudo-kinds. -/
inductive Etype where
  | entry
  | exit
  | session_start
  | session_end
  deriving DecidableEq

/-- One row of the entries table.  `ts` is the event instant in minutes,
already converted to venue-local (America/Toronto) civil time. -/
structure Event where
  gender : Gender
  etype : Etype
  ts : Nat
  deriving DecidableEq

/-- Venue-local hour of an event (getHours after the Toronto conversion). -/
def Event.hour (e : Event) : Nat := e.ts / 60 % 24

/-- Venue-local minute of an event (getMinutes after the conversion). -/
def Event.minute (e : Event) : Nat := e.ts % 60

/-- A JavaScript numeric slot: a signed integer, the undefined value read
from a missing object key, or NaN. -/
inductive JsVal where
  | num (n : Int)
  | undef
  | nan
  deriving DecidableEq

/-- JavaScript compound assignment `slot += change`: adding a number to
undefined or to NaN yields NaN. -/
def JsVal.add : JsVal → Int → JsVal
  | .num n, c => .num (n + c)
  | _, _ => .nan

/-- The accumulator object of the live counter seeding reduction: it is
created with male and female keys holding 0, so the system key starts out
as a missing key (undefined). -/
structure CountStateJs where
  male : JsVal
  female : JsVal
  system : JsVal
  deriving DecidableEq

/-- One step of the reduction in EntryLogger.fetchCurrentCounts (the same
code appears in the take-snapshot edge function): change is +1 for an
entry row and -1 for any other kind, applied unguarded to the key named by
the row's gender. -/
def elStep (acc : CountStateJs) (e : Event) : CountStateJs :=
  let change : Int := if e.etype = .entry then 1 else -1
  match e.gender with
  | .male => { acc with male := acc.male.add change }
  | .female => { acc with female := acc.female.add change }
  | .system => { acc with system := acc.system.add change }

/-- The seeding reduction of EntryLogger.fetchCurrentCounts over the
fetched rows, starting from the object literal with male and female 0. -/
def fetchCurrentCountsEL (es : List Event) : CountStateJs :=
  es.foldl elStep { male := .num 0, female := .num 0, system := .undef }

/-- The in-memory count state of the later (archiving) variant: plain
male and female numbers. -/
structure CountState where
  male : Int
  female : Int
  deriving DecidableEq

/-- One step of the archiving variant's fetchCurrentCounts reduction: rows
whose kind is not entry or exit, or whose gender is not male or female,
leave the accumulator unchanged (they are skipped silently). -/
def adStep (acc : CountState) (e : Event) : CountState :=
  if e.etype = .entry ∨ e.etype = .exit then
    let change : Int := if e.etype = .entry then 1 else -1
    if e.gender = .male then { acc with male := acc.male + change }
    else if e.gender = .female then { acc with female := acc.female + change }
    else acc
  else acc

/-- The archiving variant's fetchCurrentCounts reduction. -/
def fetchCurrentCountsAD (es : List Event) : CountState :=
  es.foldl adStep { male := 0, female := 0 }

/-- Rows whose kind is in the entry/exit enumeration and whose gender is
male or female: exactly the rows the guarded reduction processes. -/
def wellFormed (e : Event) : Bool :=
  decide ((e.etype = .entry ∨ e.etype = .exit) ∧
    (e.gender = .male ∨ e.gender = .female))

/-- The signed per-gender net that the unclamped seeding reduction
accumulates: +1 per entry row of the gender, -1 per row of the gender
with any other kind. -/
def netEL (g : Gender) : List Event → Int
  | [] => 0
  | e :: es =>
      (if e.gender = g then (if e.etype = .entry then 1 else -1) else 0) +
        netEL g es

/-- Number of exit rows of a given gender in a log. -/
def exitCount (g : Gender) : List Event → Nat
  | [] => 0
  | e :: es =>
      (if e.gender = g ∧ e.etype = .exit then 1 else 0) + exitCount g es

/-- The simple (non-archiving) handleReset of EntryLogger.tsx, as an
effect on the event log: append one male exit row when the displayed male
count is positive, then one female exit row when the displayed female
count is positive. -/
def resetLogEL (es : List Event) (dispMale dispFemale : Int) (t : Nat) :
    List Event :=
  (es ++ (if 0 < dispMale then [⟨.male, .exit, t⟩] else [])) ++
    (if 0 < dispFemale then [⟨.female, .exit, t⟩] else [])

/-- The simple handleReset paired with its local-state effect: the
post-reset event log and the displayed count, which is set to zero. -/
def handleResetEL (es : List Event) (dispMale dispFemale : Int) (t : Nat) :
    List Event × CountState :=
  (resetLogEL es dispMale dispFemale t, { male := 0, female := 0 })

/-- Per-bucket statistics of the interval dashboard (fetchIntervalStats in
src/unnamed/part_003); the label is kept alongside, see
fetchIntervalStats below. -/
structure IntervalStats where
  totalEntries : Nat
  totalExits : Nat
  maleEntries : Nat
  maleExits : Nat
  femaleEntries : Nat
  femaleExits : Nat
  runningTotal : Int
  deriving DecidableEq

/-- A freshly initialized bucket. -/
def zeroStats : IntervalStats := ⟨0, 0, 0, 0, 0, 0, 0⟩

/-- Bucket label of an event: venue-local hour, and minute floored to a
multiple of 15.  This is the HH:MM interval string of the source as a
pair of numbers (the string form is in bijection with the pair). -/
def bucketKey (e : Event) : Nat × Nat := (e.hour, e.minute / 15 * 15)

/-- The full bucket grid in generation order: the source's first loop
initializes 16:00 .. 23:45 and the second 00:00 .. 03:45, giving 48
labels.  Object key iteration, and the stable sort by adjusted hour that
follows (see gridLabels_sorted), both preserve this order. -/
def gridLabels : List (Nat × Nat) :=
  (([16, 17, 18, 19, 20, 21, 22, 23, 0, 1, 2, 3] : List Nat).map
    fun h => [(h, 0), (h, 15), (h, 30), (h, 45)]).flatten

/-- The sort key used on interval labels: hours before 04:00 belong to
the end of the night and are shifted by 24. -/
def adjHour (h : Nat) : Nat := if h < 4 then h + 24 else h

/-- Accumulate one fetched row into one bucket, exactly as the forEach of
part_003: an entry kind bumps the entry counters, every other kind bumps
the exit counters; gender male bumps the male counter and any other
gender the female counter. -/
def bumpStats (s : IntervalStats) (e : Event) : IntervalStats :=
  if e.etype = .entry then
    if e.gender = .male then
      { s with totalEntries := s.totalEntries + 1,
               maleEntries := s.maleEntries + 1 }
    else
      { s with totalEntries := s.totalEntries + 1,
               femaleEntries := s.femaleEntries + 1 }
  else
    if e.gender = .male then
      { s with totalExits := s.totalExits + 1,
               maleExits := s.maleExits + 1 }
    else
      { s with totalExits := s.totalExits + 1,
               femaleExits := s.femaleExits + 1 }

/-- Accumulate one row into the interval dictionary; rows whose label is
not a key of the dictionary (the `if (intervals[intervalStr])` guard) are
dropped. -/
def applyEvent (f : Nat × Nat → IntervalStats) (e : Event) :
    Nat × Nat → IntervalStats :=
  if bucketKey e ∈ gridLabels then
    fun k => if k = bucketKey e then bumpStats (f k) e else f k
  else f

/-- The populated interval dictionary, as a map from labels to stats. -/
def buildIntervals (es : List Event) : Nat × Nat → IntervalStats :=
  es.foldl applyEvent fun _ => zeroStats

/-- The "total people currently inside" reduce of part_003: +1 per entry
kind, clamped -1 per every other kind, over all fetched rows. -/
def totalInside (es : List Event) : Int :=
  es.foldl (fun t e => if e.etype = .entry then t + 1 else max 0 (t - 1)) 0

/-- fetchIntervalStats of part_003: an empty fetch short-circuits to an
empty array before the grid is built; otherwise the full 48-bucket grid
in chronological order, with every bucket's runningTotal overwritten by
the single constant totalInside (the source comment reads "Set all
intervals to show current total").  The generation order already
satisfies the adjusted-hour sort key (gridLabels_sorted below), so the
source's stable sort returns it unchanged.  The sibling dashboard variant
shares the empty-input short-circuit and the same two grid loops. -/
def fetchIntervalStats (es : List Event) :
    List ((Nat × Nat) × IntervalStats) :=
  if es = [] then []
  else gridLabels.map fun l =>
    (l, { buildIntervals es l with runningTotal := totalInside es })

/-- Sum of one per-bucket statistic over a bucket list. -/
def sumBy (v : IntervalStats → Nat)
    (xs : List ((Nat × Nat) × IntervalStats)) : Nat :=
  (xs.map fun p => v p.2).sum

/-- Whether the interval classifier keeps an event: its bucket label is
present in the grid dictionary. -/
def inGrid (e : Event) : Bool := decide (bucketKey e ∈ gridLabels)

/-- Modelled from the spec wording of historical-reconstruction mode
(running-total rule 4(b)): each bucket's running total is the previous
one plus that bucket's entries minus its exits, floored at zero.  This
definition follows the spec, not the source, and exists only to be
compared with the code's behavior. -/
def specCumulativeTotals (xs : List ((Nat × Nat) × IntervalStats)) :
    List Int :=
  (xs.foldl
    (fun acc p =>
      (acc.1 ++ [max 0 (acc.2 + (p.2.totalEntries : Int) - p.2.totalExits)],
       max 0 (acc.2 + (p.2.totalEntries : Int) - p.2.totalExits)))
    (([] : List Int), (0 : Int))).1

/-- One tracked maximum of the peak reduce: a count and the label of the
bucket that achieved it.  The source initializes the label to the
placeholder dash string, modelled as none; a real bucket label l is
modelled as some l. -/
structure Peak where
  count : Nat
  time : Option (Nat × Nat)
  deriving DecidableEq

/-- The six tracked maxima of the peak reduce. -/
structure PeakStats where
  totalPeakEntries : Peak
  totalPeakExits : Peak
  malePeakEntries : Peak
  malePeakExits : Peak
  femalePeakEntries : Peak
  femalePeakExits : Peak
  deriving DecidableEq

/-- Initial tracked maximum: count 0 and the placeholder label. -/
def initPeak : Peak := ⟨0, none⟩

/-- Initial accumulator of the peak reduce. -/
def initPeaks : PeakStats :=
  ⟨initPeak, initPeak, initPeak, initPeak, initPeak, initPeak⟩

/-- One step of the peak reduce of part_003: each category is updated
exactly when the bucket's value strictly exceeds the tracked count. -/
def peaksStep (p : PeakStats) (x : (Nat × Nat) × IntervalStats) :
    PeakStats where
  totalPeakEntries :=
    if p.totalPeakEntries.count < x.2.totalEntries then
      ⟨x.2.totalEntries, some x.1⟩
    else p.totalPeakEntries
  totalPeakExits :=
    if p.totalPeakExits.count < x.2.totalExits then
      ⟨x.2.totalExits, some x.1⟩
    else p.totalPeakExits
  malePeakEntries :=
    if p.malePeakEntries.count < x.2.maleEntries then
      ⟨x.2.maleEntries, some x.1⟩
    else p.malePeakEntries
  malePeakExits :=
    if p.malePeakExits.count < x.2.maleExits then
      ⟨x.2.maleExits, some x.1⟩
    else p.malePeakExits
  femalePeakEntries :=
    if p.femalePeakEntries.count < x.2.femaleEntries then
      ⟨x.2.femaleEntries, some x.1⟩
    else p.femalePeakEntries
  femalePeakExits :=
    if p.femalePeakExits.count < x.2.femaleExits then
      ⟨x.2.femaleExits, some x.1⟩
    else p.femalePeakExits

/-- The peak statistics reduce of part_003 over the sorted bucket array. -/
def computePeaks (xs : List ((Nat × Nat) × IntervalStats)) : PeakStats :=
  xs.foldl peaksStep initPeaks

/-- The six count categories of the peak table. -/
inductive Cat where
  | tEnt
  | tEx
  | mEnt
  | mEx
  | fEnt
  | fEx
  deriving DecidableEq

/-- Value of one category in one bucket. -/
def catVal : Cat → IntervalStats → Nat
  | .tEnt, s => s.totalEntries
  | .tEx, s => s.totalExits
  | .mEnt, s => s.maleEntries
  | .mEx, s => s.maleExits
  | .fEnt, s => s.femaleEntries
  | .fEx, s => s.femaleExits

/-- The tracked maximum of one category. -/
def catPeak : Cat → PeakStats → Peak
  | .tEnt, p => p.totalPeakEntries
  | .tEx, p => p.totalPeakExits
  | .mEnt, p => p.malePeakEntries
  | .mEx, p => p.malePeakExits
  | .fEnt, p => p.femalePeakEntries
  | .fEx, p => p.femalePeakExits

/-- Generic single-category step of the peak reduce, used to reason about
the six categories uniformly. -/
def peakStep {α : Type} (v : α → Nat) (lab : α → Nat × Nat) (p : Peak)
    (x : α) : Peak :=
  if p.count < v x then ⟨v x, some (lab x)⟩ else p

/-- Left fold of max over the values of a list, from a given start. -/
def maxFrom {α : Type} (v : α → Nat) (a : Nat) : List α → Nat
  | [] => a
  | x :: xs => maxFrom v (max a (v x)) xs

/-- One row of the historical_intervals breakdown built by the archiving
handleReset; `start` is the interval start instant in minutes (the
interval end is start + 14 minutes 59.999 seconds and is determined by
it, so it is not repeated here). -/
structure ResetInterval where
  start : Nat
  total_entries : Nat
  total_exits : Nat
  male_entries : Nat
  male_exits : Nat
  female_entries : Nat
  female_exits : Nat
  running_total : Int
  deriving DecidableEq

/-- Interval key of an event in the archiving handleReset: its instant
floored to a multiple of 15 minutes. -/
def intervalKey (e : Event) : Nat := e.ts / 15 * 15

/-- A freshly initialized breakdown interval. -/
def zeroInterval (k : Nat) : ResetInterval := ⟨k, 0, 0, 0, 0, 0, 0, 0⟩

/-- Update one breakdown interval with one event and stamp the current
running total, exactly as the forEach of the archiving handleReset:
entry and exit kinds bump their counters with an else-if gender guard,
session kinds bump nothing, and the running total is stamped on the
interval after every event. -/
def bumpInterval (iv : ResetInterval) (e : Event) (rt : Int) :
    ResetInterval :=
  let iv2 :=
    if e.etype = .entry then
      if e.gender = .male then
        { iv with total_entries := iv.total_entries + 1,
                  male_entries := iv.male_entries + 1 }
      else if e.gender = .female then
        { iv with total_entries := iv.total_entries + 1,
                  female_entries := iv.female_entries + 1 }
      else { iv with total_entries := iv.total_entries + 1 }
    else if e.etype = .exit then
      if e.gender = .male then
        { iv with total_exits := iv.total_exits + 1,
                  male_exits := iv.male_exits + 1 }
      else if e.gender = .female then
        { iv with total_exits := iv.total_exits + 1,
                  female_exits := iv.female_exits + 1 }
      else { iv with total_exits := iv.total_exits + 1 }
    else iv
  { iv2 with running_total := rt }

/-- The running-total update of the archiving handleReset: entry kinds
increment, exit kinds decrement clamped at zero, session kinds leave it
unchanged. -/
def rtStep (rt : Int) (e : Event) : Int :=
  if e.etype = .entry then rt + 1
  else if e.etype = .exit then max 0 (rt - 1)
  else rt

/-- The clamped net occupancy over a whole event list: the net of entries
minus exits, floored at 0 at every step. -/
def clampedNet (es : List Event) : Int := es.foldl rtStep 0

/-- One event step of the archiving handleReset's interval construction:
insert the event's interval at the end of the dictionary if absent
(JavaScript Map preserves insertion order), update the running total, and
bump the matching interval. -/
def resetStep (st : List (Nat × ResetInterval) × Int) (e : Event) :
    List (Nat × ResetInterval) × Int :=
  let k := intervalKey e
  let ivs :=
    if st.1.any fun p => p.1 == k then st.1
    else st.1 ++ [(k, zeroInterval k)]
  let rt := rtStep st.2 e
  (ivs.map fun p => if p.1 = k then (p.1, bumpInterval p.2 e rt) else p, rt)

/-- The interval dictionary (in insertion order) and the final running
total built by the archiving handleReset from the time-ordered fetch. -/
def buildResetIntervals (es : List Event) :
    List (Nat × ResetInterval) × Int :=
  es.foldl resetStep ([], 0)

/-- A venue-local civil instant for the business date resolvers: a day
index (days since an epoch, so the previous calendar date is day - 1) and
the local hour.  The calendar arithmetic of the source (subtracting one
day on a Date) is exactly day - 1 on the day index. -/
structure LocalTime where
  day : Int
  hour : Nat
  deriving DecidableEq

/-- getTodayInToronto of the live counter variant (src/unnamed/part_004):
between midnight and 3:59 local the previous day is used (cutover 4). -/
def getTodayInTorontoCut4 (t : LocalTime) : Int :=
  if t.hour < 4 then t.day - 1 else t.day

/-- getTodayInToronto of the dashboard variant (src/unnamed/part_003):
between midnight and 2:59 local the previous day is used (cutover 3). -/
def getTodayInTorontoCut3 (t : LocalTime) : Int :=
  if t.hour < 3 then t.day - 1 else t.day

/-- Summary counters of the archiving handleReset. -/
structure SummaryCounts where
  total_entries : Nat
  total_exits : Nat
  male_entries : Nat
  male_exits : Nat
  female_entries : Nat
  female_exits : Nat
  deriving DecidableEq

/-- One step of the summary reduce of the archiving handleReset: entry
and exit kinds bump totals with an else-if gender guard, session kinds
bump nothing. -/
def summaryStep (acc : SummaryCounts) (e : Event) : SummaryCounts :=
  if e.etype = .entry then
    if e.gender = .male then
      { acc with total_entries := acc.total_entries + 1,
                 male_entries := acc.male_entries + 1 }
    else if e.gender = .female then
      { acc with total_entries := acc.total_entries + 1,
                 female_entries := acc.female_entries + 1 }
    else { acc with total_entries := acc.total_entries + 1 }
  else if e.etype = .exit then
    if e.gender = .male then
      { acc with total_exits := acc.total_exits + 1,
                 male_exits := acc.male_exits + 1 }
    else if e.gender = .female then
      { acc with total_exits := acc.total_exits + 1,
                 female_exits := acc.female_exits + 1 }
    else { acc with total_exits := acc.total_exits + 1 }
  else acc

/-- The summary statistics of the archiving handleReset. -/
def summaryStats (es : List Event) : SummaryCounts :=
  es.foldl summaryStep ⟨0, 0, 0, 0, 0, 0⟩

/-- One row of the historical_entries archive summary table. -/
structure HistRow where
  date : Int
  start_time : Nat
  end_time : Nat
  total_entries : Nat
  total_exits : Nat
  male_entries : Nat
  male_exits : Nat
  female_entries : Nat
  female_exits : Nat
  final_count : Int
  deriving DecidableEq

/-- The three tables touched by the archiving handleReset. -/
structure ResetDB where
  entries : List Event
  historical_entries : List HistRow
  historical_intervals : List (Nat × ResetInterval)
  deriving DecidableEq

/-- Which of the four store requests of the archiving handleReset fail.
A failed request commits nothing by itself (each is a single statement);
the catch block stops the remaining steps. -/
structure ResetFailures where
  fetchFails : Bool
  archiveInsertFails : Bool
  intervalInsertFails : Bool
  deleteFails : Bool
  deriving DecidableEq

/-- The observable outcome of one archiving handleReset call: the store
state, the local displayed count, and whether the catch block surfaced an
error message. -/
structure ResetOutcome where
  db : ResetDB
  count : CountState
  errorSurfaced : Bool
  deriving DecidableEq

/-- The archiving handleReset of the later EntryLogger variant, as a
sequence of store requests: fetch all entries ordered by time; if the
fetch is empty, only the local count is reset; otherwise insert the
archive summary row, insert the interval breakdown rows, delete all
entries, and reset the local count; the first failing request aborts the
remaining steps, surfaces the error, and leaves the local count as it
was.  nowDate and nowTs stand for the Toronto-local date and current
instant taken at the top of the function. -/
def handleResetArchive (fl : ResetFailures) (db : ResetDB)
    (c : CountState) (nowDate : Int) (nowTs : Nat) : ResetOutcome :=
  if fl.fetchFails then ⟨db, c, true⟩
  else
    match db.entries with
    | [] => ⟨db, ⟨0, 0⟩, false⟩
    | e0 :: _ =>
      if fl.archiveInsertFails then ⟨db, c, true⟩
      else
        let s := summaryStats db.entries
        let row : HistRow :=
          ⟨nowDate, e0.ts, nowTs, s.total_entries, s.total_exits,
            s.male_entries, s.male_exits, s.female_entries, s.female_exits,
            c.male + c.female⟩
        let db1 :=
          { db with historical_entries := db.historical_entries ++ [row] }
        if fl.intervalInsertFails then ⟨db1, c, true⟩
        else
          let db2 :=
            { db1 with historical_intervals :=
                db1.historical_intervals ++ (buildResetIntervals db.entries).1 }
          if fl.deleteFails then ⟨db2, c, true⟩
          else ⟨{ db2 with entries := [] }, ⟨0, 0⟩, false⟩

/-- A sample night: a male entry at 16:05, a female entry at 16:20 and a
male exit at 16:35 (minutes 965, 980, 995 of the day). -/
def es3 : List Event :=
  [⟨.male, .entry, 965⟩, ⟨.female, .entry, 980⟩, ⟨.male, .exit, 995⟩]

/-- A two-event archive fetch: a male entry at 16:05 and a female exit at
16:10, both in the 16:00 interval. -/
def es4 : List Event := [⟨.male, .entry, 965⟩, ⟨.female, .exit, 970⟩]

/-- The worked peak example of the spec: buckets 18:00 and 18:15 with 5
total entries each and 18:30 with 3. -/
def xs7 : List ((Nat × Nat) × IntervalStats) :=
  [((18, 0), ⟨5, 0, 0, 0, 0, 0, 0⟩), ((18, 15), ⟨5, 0, 0, 0, 0, 0, 0⟩),
    ((18, 30), ⟨3, 0, 0, 0, 0, 0, 0⟩)]

/-- A log with a male net count of 2, used to exercise the simple reset. -/
def esW : List Event := [⟨.male, .entry, 1⟩, ⟨.male, .entry, 2⟩]

theorem netEL_append (g : Gender) (es l : List Event) :
    netEL g (es ++ l) = netEL g es + netEL g l := by
  induction es with
  | nil => simp [netEL]
  | cons e t ih => simp only [List.cons_append, netEL, List.append_eq, ih]; ring

theorem exitCount_append (g : Gender) (es l : List Event) :
    exitCount g (es ++ l) = exitCount g es + exitCount g l := by
  induction es with
  | nil => simp [exitCount]
  | cons e t ih => simp only [List.cons_append, exitCount, List.append_eq, ih]; omega

theorem elStep_fold (es : List Event) :
    ∀ (acc : CountStateJs) (m f : Int),
      acc.male = JsVal.num m → acc.female = JsVal.num f →
      (es.foldl elStep acc).male = JsVal.num (m + netEL Gender.male es) ∧
      (es.foldl elStep acc).female = JsVal.num (f + netEL Gender.female es) := by
  induction es with
  | nil =>
    intro acc m f hm hf
    simp [netEL, hm, hf]
  | cons e t ih =>
    intro acc m f hm hf
    obtain ⟨g, ty, ts⟩ := e
    cases g with
    | male =>
      have h1 : (elStep acc ⟨Gender.male, ty, ts⟩).male =
          JsVal.num (m + if ty = Etype.entry then 1 else -1) := by
        simp [elStep, hm, JsVal.add]
      have h2 : (elStep acc ⟨Gender.male, ty, ts⟩).female = JsVal.num f := by
        simp [elStep, hf]
      have h := ih (elStep acc ⟨Gender.male, ty, ts⟩)
        (m + if ty = Etype.entry then 1 else -1) f h1 h2
      rw [List.foldl_cons]
      refine ⟨?_, ?_⟩
      · rw [h.1]
        have hn : netEL Gender.male (⟨Gender.male, ty, ts⟩ :: t) =
            (if ty = Etype.entry then 1 else -1) + netEL Gender.male t := by
          simp [netEL]
        rw [hn, add_assoc]
      · rw [h.2]
        have hn : netEL Gender.female (⟨Gender.male, ty, ts⟩ :: t) =
            netEL Gender.female t := by
          simp [netEL]
        rw [hn]
    | female =>
      have h1 : (elStep acc ⟨Gender.female, ty, ts⟩).male = JsVal.num m := by
        simp [elStep, hm]
      have h2 : (elStep acc ⟨Gender.female, ty, ts⟩).female =
          JsVal.num (f + if ty = Etype.entry then 1 else -1) := by
        simp [elStep, hf, JsVal.add]
      have h := ih (elStep acc ⟨Gender.female, ty, ts⟩) m
        (f + if ty = Etype.entry then 1 else -1) h1 h2
      rw [List.foldl_cons]
      refine ⟨?_, ?_⟩
      · rw [h.1]
        have hn : netEL Gender.male (⟨Gender.female, ty, ts⟩ :: t) =
            netEL Gender.male t := by
          simp [netEL]
        rw [hn]
      · rw [h.2]
        have hn : netEL Gender.female (⟨Gender.female, ty, ts⟩ :: t) =
            (if ty = Etype.entry then 1 else -1) + netEL Gender.female t := by
          simp [netEL]
        rw [hn, add_assoc]
    | system =>
      have h1 : (elStep acc ⟨Gender.system, ty, ts⟩).male = JsVal.num m := by
        simp [elStep, hm]
      have h2 : (elStep acc ⟨Gender.system, ty, ts⟩).female = JsVal.num f := by
        simp [elStep, hf]
      have h := ih (elStep acc ⟨Gender.system, ty, ts⟩) m f h1 h2
      rw [List.foldl_cons]
      refine ⟨?_, ?_⟩
      · rw [h.1]
        have hn : netEL Gender.male (⟨Gender.system, ty, ts⟩ :: t) =
            netEL Gender.male t := by
          simp [netEL]
        rw [hn]
      · rw [h.2]
        have hn : netEL Gender.female (⟨Gender.system, ty, ts⟩ :: t) =
            netEL Gender.female t := by
          simp [netEL]
        rw [hn]

/-- C1, counterexample: the seeding reduction of
EntryLogger.fetchCurrentCounts applied to a single male exit row returns
a male count of -1.  The claim says the reduction clamps each update at 0
and always yields male and female at least 0; the code has no clamp, so
this fetched list refutes it. -/
theorem c1_counterexample :
    fetchCurrentCountsEL [⟨Gender.male, Etype.exit, 0⟩] =
      { male := JsVal.num (-1), female := JsVal.num 0,
        system := JsVal.undef } ∧
    (-1 : Int) < 0 := by decide

/-- C1, amended: the reduction that seeds CurrentCount applies +1 per
entry-kind row and -1 per row of any other kind to the matching gender
with no clamping, so each gender's seeded component equals the signed
net of the fetched rows for that gender and is negative exactly when the
gender's non-entry rows outnumber its entry rows. -/
theorem c1_seed_counts (es : List Event) :
    (fetchCurrentCountsEL es).male = JsVal.num (netEL Gender.male es) ∧
    (fetchCurrentCountsEL es).female = JsVal.num (netEL Gender.female es) := by
  have h := elStep_fold es
    { male := JsVal.num 0, female := JsVal.num 0, system := JsVal.undef }
    0 0 rfl rfl
  simpa [fetchCurrentCountsEL] using h

theorem adStep_skip (acc : CountState) (e : Event)
    (h : wellFormed e = false) : adStep acc e = acc := by
  obtain ⟨g, ty, ts⟩ := e
  cases g <;> cases ty <;> simp_all [adStep, wellFormed]

theorem adStep_fold_filter (es : List Event) :
    ∀ acc : CountState,
      es.foldl adStep acc = (es.filter wellFormed).foldl adStep acc := by
  induction es with
  | nil => intro acc; rfl
  | cons e t ih =>
    intro acc
    by_cases hw : wellFormed e = true
    · simp [List.filter_cons, hw, List.foldl_cons, ih]
    · have hw2 : wellFormed e = false := by simpa using hw
      have hskip := adStep_skip acc e hw2
      simp [List.filter_cons, hw2, List.foldl_cons, hskip, ih]

/-- C9, counterexample: the earlier seeding reduction does not skip rows
whose kind or gender is outside the expected enumerations.  A male
session_start row decrements the male count to -1 instead of being
skipped (reducing only the well-formed rows, here none, gives 0), and a
system exit row leaves a NaN component in the accumulator. -/
theorem c9_counterexample :
    fetchCurrentCountsEL [⟨Gender.male, Etype.session_start, 0⟩] =
      { male := JsVal.num (-1), female := JsVal.num 0,
        system := JsVal.undef } ∧
    fetchCurrentCountsEL
        (([⟨Gender.male, Etype.session_start, 0⟩] : List Event).filter
          wellFormed) =
      { male := JsVal.num 0, female := JsVal.num 0,
        system := JsVal.undef } ∧
    fetchCurrentCountsEL [⟨Gender.system, Etype.exit, 0⟩] =
      { male := JsVal.num 0, female := JsVal.num 0,
        system := JsVal.nan } := by decide

/-- C9, amended: the archiving variant's count reduction guards both the
kind and the gender of each fetched row and silently skips rows outside
the enumerations (no warning is logged), so its result equals the
reduction over only the well-formed rows and its components stay plain
integers; the earlier variant's reduction applies the delta unguarded,
so a malformed row perturbs a gender count or leaves a NaN component. -/
theorem c9_malformed_rows (es : List Event) :
    fetchCurrentCountsAD es = fetchCurrentCountsAD (es.filter wellFormed) := by
  simpa [fetchCurrentCountsAD] using adStep_fold_filter es ⟨0, 0⟩

/-- C10: the simple handleReset appends at most one exit row per gender
(one exactly when that gender's displayed count is positive), resets the
displayed count to zero, and when a gender's log-derived net count
exceeds 1, the reduction over the post-reset log yields that net minus 1,
which is nonzero, so the displayed zero diverges from the log-derived
count on the next full refetch. -/
theorem c10_simple_reset (es : List Event) (t : Nat) (g : Gender)
    (hg : g = Gender.male ∨ g = Gender.female) :
    (handleResetEL es (netEL Gender.male es) (netEL Gender.female es)
        t).2 = ⟨0, 0⟩ ∧
    exitCount g
        (resetLogEL es (netEL Gender.male es) (netEL Gender.female es) t) ≤
      exitCount g es + 1 ∧
    (1 < netEL g es →
      netEL g
          (resetLogEL es (netEL Gender.male es) (netEL Gender.female es)
            t) =
        netEL g es - 1 ∧
      netEL g
          (resetLogEL es (netEL Gender.male es) (netEL Gender.female es)
            t) ≠ 0) := by
  refine ⟨rfl, ?_, ?_⟩
  · rcases hg with rfl | rfl <;>
    · unfold resetLogEL
      by_cases hm : 0 < netEL Gender.male es <;>
        by_cases hf : 0 < netEL Gender.female es <;>
          simp [exitCount_append, exitCount, hm, hf]
  · intro h1
    rcases hg with rfl | rfl
    · have hm : 0 < netEL Gender.male es := by omega
      unfold resetLogEL
      by_cases hf : 0 < netEL Gender.female es <;>
        · rw [netEL_append, netEL_append]
          simp only [hm, hf, if_pos, if_neg, if_true, if_false]
          simp [netEL]
          omega
    · have hf : 0 < netEL Gender.female es := by omega
      unfold resetLogEL
      by_cases hm : 0 < netEL Gender.male es <;>
        · rw [netEL_append, netEL_append]
          simp only [hm, hf, if_pos, if_neg, if_true, if_false]
          simp [netEL]
          omega

/-- C10, witness: on a log of two male entries (net 2), the simple reset
appends one male exit, resets the displayed count to zero, and the
reduction over the post-reset log yields 1, not 0. -/
theorem c10_witness :
    (handleResetEL esW (netEL Gender.male esW) (netEL Gender.female esW)
        5).2 = ⟨0, 0⟩ ∧
    exitCount Gender.male
        (resetLogEL esW (netEL Gender.male esW) (netEL Gender.female esW)
          5) ≤
      exitCount Gender.male esW + 1 ∧
    (netEL Gender.male
        (resetLogEL esW (netEL Gender.male esW) (netEL Gender.female esW)
          5) =
      netEL Gender.male esW - 1 ∧
    netEL Gender.male
        (resetLogEL esW (netEL Gender.male esW) (netEL Gender.female esW)
          5) ≠ 0) := by
  have h := c10_simple_reset esW 5 Gender.male (Or.inl rfl)
  exact ⟨h.1, h.2.1, h.2.2 (by decide)⟩

theorem gridLabels_nodup : gridLabels.Nodup := by decide

/-- The grid generation order already satisfies the adjusted-hour sort
key, so the source's stable sort leaves the bucket array in this order. -/
theorem gridLabels_sorted :
    gridLabels.Pairwise fun a b => adjHour a.1 ≤ adjHour b.1 := by decide

/-- C2, counterexample: the grid length is never 44.  The empty fetch
short-circuits to an empty array (length 0), and a nonempty fetch yields
the 48-bucket grid 16:00 .. 03:45 (the claimed 16:00-03:00 window at
15-minute width would end at 02:45 with 44 buckets). -/
theorem c2_counterexample :
    (fetchIntervalStats ([] : List Event)).length = 0 ∧ (0 : Nat) ≠ 44 ∧
    (fetchIntervalStats [⟨Gender.male, Etype.entry, 965⟩]).length = 48 ∧
    (48 : Nat) ≠ 44 := by decide

/-- C2, amended: for every nonempty input list fetchIntervalStats builds
the full zero-initialized grid of exactly 48 buckets (16:00 to 03:45 at
15-minute width) regardless of where events fall, while the empty input
short-circuits to an empty array before the grid is generated. -/
theorem c2_grid_length (es : List Event) :
    fetchIntervalStats ([] : List Event) = [] ∧
    (es ≠ [] → (fetchIntervalStats es).length = 48) := by
  refine ⟨rfl, fun h => ?_⟩
  unfold fetchIntervalStats
  rw [if_neg h, List.length_map]
  decide

/-- C2, witness: a one-event fetch yields the 48-bucket grid. -/
theorem c2_witness :
    (fetchIntervalStats [⟨Gender.male, Etype.entry, 965⟩]).length = 48 :=
  (c2_grid_length [⟨Gender.male, Etype.entry, 965⟩]).2 (by decide)

/-- C3, counterexample: for the sample night (entries at 16:05 and 16:20,
exit at 16:35) the dashboard stores runningTotal 1 in the 16:15 bucket
(position 1), whereas the cumulative scan of the spec's
historical-reconstruction mode yields 2 there, so loadDate does not
compute per-bucket cumulative running totals. -/
theorem c3_counterexample :
    ((fetchIntervalStats es3).map fun p => p.2.runningTotal)[1]? = some 1 ∧
    (specCumulativeTotals (fetchIntervalStats es3))[1]? = some 2 ∧
    (1 : Int) ≠ 2 := by decide

/-- C3, amended: the dashboard's fetchIntervalStats runs in current-state
mode: every bucket's runningTotal is overwritten with the single constant
totalInside (the clamped final occupancy over all fetched events),
replicated across the whole grid, not a per-bucket cumulative scan. -/
theorem c3_running_total_mode (es : List Event)
    (p : (Nat × Nat) × IntervalStats) (hp : p ∈ fetchIntervalStats es) :
    p.2.runningTotal = totalInside es := by
  unfold fetchIntervalStats at hp
  by_cases h : es = []
  · simp [h] at hp
  · rw [if_neg h] at hp
    obtain ⟨l, hl, rfl⟩ := List.mem_map.1 hp
    rfl

/-- C3, witness: the 16:00 bucket of the sample night carries
runningTotal 1, the constant totalInside of the night. -/
theorem c3_witness :
    IntervalStats.runningTotal ⟨1, 0, 1, 0, 0, 0, 1⟩ = totalInside es3 :=
  c3_running_total_mode es3 ((16, 0), ⟨1, 0, 1, 0, 0, 0, 1⟩) (by decide)

/-- C5, counterexample: the dashboard variant of the business date
resolver uses cutover hour 3, not 4: at 03:xx local (hour 3, which is
strictly below 4) it returns the same calendar date instead of the
previous one. -/
theorem c5_counterexample :
    (LocalTime.mk 100 3).hour < 4 ∧
    getTodayInTorontoCut3 ⟨100, 3⟩ = 100 ∧
    (100 : Int) ≠ 100 - 1 := by decide

/-- C5, amended: both resolvers are deterministic pure total functions,
but with different cutover hours: the live counter variant returns the
previous calendar date exactly below hour 4 and the same date from hour 4
on, while the dashboard variant returns the previous date exactly below
hour 3 and the same date from hour 3 on; the two agree at 02:59
(previous date) and at 04:00 (same date). -/
theorem c5_business_date (t : LocalTime) :
    (t.hour < 4 → getTodayInTorontoCut4 t = t.day - 1) ∧
    (4 ≤ t.hour → getTodayInTorontoCut4 t = t.day) ∧
    (t.hour < 3 → getTodayInTorontoCut3 t = t.day - 1) ∧
    (3 ≤ t.hour → getTodayInTorontoCut3 t = t.day) := by
  refine ⟨fun h => ?_, fun h => ?_, fun h => ?_, fun h => ?_⟩
  · simp [getTodayInTorontoCut4, h]
  · have h4 : ¬t.hour < 4 := by omega
    simp [getTodayInTorontoCut4, h4]
  · simp [getTodayInTorontoCut3, h]
  · have h3 : ¬t.hour < 3 := by omega
    simp [getTodayInTorontoCut3, h3]

/-- C5, witness: both resolvers evaluated at 02:00 and at their
respective cutover instants on day 100. -/
theorem c5_witness :
    getTodayInTorontoCut4 ⟨100, 2⟩ = 100 - 1 ∧
    getTodayInTorontoCut4 ⟨100, 4⟩ = 100 ∧
    getTodayInTorontoCut3 ⟨100, 2⟩ = 100 - 1 ∧
    getTodayInTorontoCut3 ⟨100, 3⟩ = 100 :=
  ⟨(c5_business_date ⟨100, 2⟩).1 (by decide),
    (c5_business_date ⟨100, 4⟩).2.1 (by decide),
    (c5_business_date ⟨100, 2⟩).2.2.1 (by decide),
    (c5_business_date ⟨100, 3⟩).2.2.2 (by decide)⟩

/-- C6, counterexample: when the interval insert fails after the archive
summary insert succeeded, the reset surfaces an error but the summary row
stays committed: the historical_entries table grew from 0 to 1 rows, so
the whole reset is not aborted with no partial state. -/
theorem c6_counterexample :
    (handleResetArchive ⟨false, false, true, false⟩
        ⟨[⟨Gender.male, Etype.entry, 965⟩], [], []⟩ ⟨1, 0⟩ 0
        1000).errorSurfaced = true ∧
    (handleResetArchive ⟨false, false, true, false⟩
        ⟨[⟨Gender.male, Etype.entry, 965⟩], [], []⟩ ⟨1, 0⟩ 0
        1000).db.historical_entries.length = 1 ∧
    (1 : Nat) ≠ 0 := by decide

/-- C6, amended: when any step of the archiving reset fails, the
remaining steps are skipped, the error is surfaced, the live entries
table is untouched (the delete only runs after every archive write
succeeded) and the displayed count is left unchanged for retry; but store
writes that already committed persist, so a later-step failure leaves a
partial archive behind. -/
theorem c6_reset_failure (fl : ResetFailures) (db : ResetDB)
    (c : CountState) (nowDate : Int) (nowTs : Nat)
    (h : (handleResetArchive fl db c nowDate nowTs).errorSurfaced = true) :
    (handleResetArchive fl db c nowDate nowTs).db.entries = db.entries ∧
    (handleResetArchive fl db c nowDate nowTs).count = c := by
  obtain ⟨f1, f2, f3, f4⟩ := fl
  obtain ⟨ents, he, hi⟩ := db
  cases ents with
  | nil => cases f1 <;> simp_all [handleResetArchive]
  | cons e0 rest =>
    cases f1 <;> cases f2 <;> cases f3 <;> cases f4 <;>
      simp_all [handleResetArchive]

/-- C6, witness: a failing fetch surfaces an error and leaves both the
entries table and the displayed count untouched. -/
theorem c6_witness :
    (handleResetArchive ⟨true, false, false, false⟩ ⟨[], [], []⟩ ⟨5, 3⟩ 0
        0).db.entries = [] ∧
    (handleResetArchive ⟨true, false, false, false⟩ ⟨[], [], []⟩ ⟨5, 3⟩ 0
        0).count = ⟨5, 3⟩ :=
  c6_reset_failure ⟨true, false, false, false⟩ ⟨[], [], []⟩ ⟨5, 3⟩ 0 0
    (by decide)

theorem sum_update {K : Type} [DecidableEq K] (L : List K) (f : K → Nat)
    (k : K) (d : Nat) (hnd : L.Nodup) (hk : k ∈ L) :
    (L.map fun l => if l = k then f l + d else f l).sum =
      (L.map f).sum + d := by
  induction L with
  | nil => simp at hk
  | cons a M ih =>
    rw [List.nodup_cons] at hnd
    rcases List.mem_cons.1 hk with rfl | hk2
    · have hM : ∀ l ∈ M, (if l = k then f l + d else f l) = f l := by
        intro l hl
        rw [if_neg]
        intro hla
        exact hnd.1 (hla ▸ hl)
      simp only [List.map_cons, List.sum_cons]
      rw [List.map_congr_left hM]
      simp only [if_true]
      omega
    · have hka : ¬a = k := by
        intro hak
        exact hnd.1 (hak ▸ hk2)
      simp only [List.map_cons, if_neg hka, List.sum_cons, ih hnd.2 hk2]
      omega

theorem sumGrid_foldl (v : IntervalStats → Nat) (q : Event → Bool)
    (hbump : ∀ s e, v (bumpStats s e) = v s + (if q e then 1 else 0)) :
    ∀ (es : List Event) (f : Nat × Nat → IntervalStats),
      (gridLabels.map fun l => v (List.foldl applyEvent f es l)).sum =
        (gridLabels.map fun l => v (f l)).sum +
          (es.filter fun e => inGrid e && q e).length := by
  intro es
  induction es with
  | nil => intro f; simp
  | cons e t ih =>
    intro f
    rw [List.foldl_cons, ih (applyEvent f e), List.filter_cons]
    by_cases hg : bucketKey e ∈ gridLabels
    · have happ : ∀ l,
          applyEvent f e l =
            if l = bucketKey e then bumpStats (f l) e else f l := by
        intro l
        simp [applyEvent, hg]
      have hmap : (gridLabels.map fun l => v (applyEvent f e l)) =
          gridLabels.map fun l =>
            if l = bucketKey e then v (f l) + (if q e then 1 else 0)
            else v (f l) := by
        apply List.map_congr_left
        intro l _
        rw [happ l]
        by_cases hlk : l = bucketKey e
        · rw [if_pos hlk, if_pos hlk, hbump]
        · rw [if_neg hlk, if_neg hlk]
      rw [hmap, sum_update gridLabels (fun l => v (f l)) (bucketKey e)
        (if q e then 1 else 0) gridLabels_nodup hg]
      have hig : inGrid e = true := by simp [inGrid, hg]
      by_cases hq : q e = true
      · simp [hig, hq]
        omega
      · have hq2 : q e = false := by simpa using hq
        simp [hig, hq2]
    · have happ : applyEvent f e = f := by simp [applyEvent, hg]
      have hig : inGrid e = false := by simp [inGrid, hg]
      rw [happ]
      simp [hig]

theorem bump_totalEntries (s : IntervalStats) (e : Event) :
    (bumpStats s e).totalEntries =
      s.totalEntries + (if decide (e.etype = Etype.entry) then 1 else 0) := by
  by_cases h : e.etype = Etype.entry <;>
    by_cases hg : e.gender = Gender.male <;> simp [bumpStats, h, hg]

theorem bump_totalExits (s : IntervalStats) (e : Event) :
    (bumpStats s e).totalExits =
      s.totalExits + (if decide (e.etype ≠ Etype.entry) then 1 else 0) := by
  by_cases h : e.etype = Etype.entry <;>
    by_cases hg : e.gender = Gender.male <;> simp [bumpStats, h, hg]

/-- C8, counterexample: a session_start row in the grid is counted as an
exit (the classifier's else branch treats every non-entry kind as an
exit), so the per-bucket exit sum is 1 while the number of Exit-kind
events in the grid is 0: the exits conservation equation of the claim
fails. -/
theorem c8_counterexample :
    sumBy (fun s => s.totalExits)
        (fetchIntervalStats [⟨Gender.system, Etype.session_start, 965⟩]) =
      1 ∧
    (([⟨Gender.system, Etype.session_start, 965⟩] : List Event).filter
        fun e => inGrid e && decide (e.etype = Etype.exit)).length = 0 ∧
    (1 : Nat) ≠ 0 := by decide

/-- C8, amended: over the full grid the per-bucket entry sum equals the
number of Entry-kind events whose bucket label is in the grid (events
outside the grid are dropped), and the per-bucket exit sum equals the
number of in-grid events of every other kind (exit and session markers
alike), because the classifier's else branch counts any non-entry kind as
an exit. -/
theorem c8_conservation (es : List Event) :
    sumBy (fun s => s.totalEntries) (fetchIntervalStats es) =
      (es.filter fun e =>
        inGrid e && decide (e.etype = Etype.entry)).length ∧
    sumBy (fun s => s.totalExits) (fetchIntervalStats es) =
      (es.filter fun e =>
        inGrid e && decide (e.etype ≠ Etype.entry)).length := by
  by_cases h : es = []
  · subst h
    exact ⟨rfl, rfl⟩
  · constructor
    · unfold sumBy fetchIntervalStats
      rw [if_neg h, List.map_map]
      have hs := sumGrid_foldl (fun s => s.totalEntries)
        (fun e => decide (e.etype = Etype.entry)) bump_totalEntries es
        (fun _ => zeroStats)
      simpa [buildIntervals, zeroStats, Function.comp] using hs
    · unfold sumBy fetchIntervalStats
      rw [if_neg h, List.map_map]
      have hs := sumGrid_foldl (fun s => s.totalExits)
        (fun e => decide (e.etype ≠ Etype.entry)) bump_totalExits es
        (fun _ => zeroStats)
      simpa [buildIntervals, zeroStats, Function.comp] using hs

theorem le_maxFrom {α : Type} (v : α → Nat) :
    ∀ (xs : List α) (a : Nat), a ≤ maxFrom v a xs := by
  intro xs
  induction xs with
  | nil => intro a; exact Nat.le_refl a
  | cons x t ih =>
    intro a
    simp only [maxFrom]
    calc a ≤ max a (v x) := Nat.le_max_left a (v x)
      _ ≤ maxFrom v (max a (v x)) t := ih (max a (v x))

theorem maxFrom_attained {α : Type} (v : α → Nat) :
    ∀ (xs : List α) (a : Nat), a < maxFrom v a xs →
      ∃ y ∈ xs, v y = maxFrom v a xs := by
  intro xs
  induction xs with
  | nil =>
    intro a h
    simp only [maxFrom] at h
    omega
  | cons x t ih =>
    intro a h
    simp only [maxFrom] at h ⊢
    by_cases hb : max a (v x) < maxFrom v (max a (v x)) t
    · obtain ⟨y, hy, hvy⟩ := ih (max a (v x)) hb
      exact ⟨y, List.mem_cons_of_mem x hy, hvy⟩
    · have hM : maxFrom v (max a (v x)) t = max a (v x) :=
        Nat.le_antisymm (Nat.not_lt.1 hb) (le_maxFrom v t (max a (v x)))
      rw [hM] at h ⊢
      exact ⟨x, List.mem_cons_self x t, by omega⟩

theorem peakStep_count {α : Type} (v : α → Nat) (lab : α → Nat × Nat)
    (p : Peak) (x : α) :
    (peakStep v lab p x).count = max p.count (v x) := by
  unfold peakStep
  split
  · show v x = max p.count (v x)
    omega
  · show p.count = max p.count (v x)
    omega

theorem peakFold_count {α : Type} (v : α → Nat) (lab : α → Nat × Nat) :
    ∀ (xs : List α) (p : Peak),
      (List.foldl (peakStep v lab) p xs).count = maxFrom v p.count xs := by
  intro xs
  induction xs with
  | nil => intro p; rfl
  | cons x t ih =>
    intro p
    rw [List.foldl_cons, ih (peakStep v lab p x)]
    simp only [maxFrom]
    rw [peakStep_count]

theorem peakFold_time {α : Type} (v : α → Nat) (lab : α → Nat × Nat) :
    ∀ (xs : List α) (p : Peak),
      (List.foldl (peakStep v lab) p xs).time =
        if p.count < maxFrom v p.count xs then
          (xs.find? fun x => v x == maxFrom v p.count xs).elim p.time
            fun x => some (lab x)
        else p.time := by
  intro xs
  induction xs with
  | nil =>
    intro p
    simp [maxFrom]
  | cons x t ih =>
    intro p
    rw [List.foldl_cons]
    by_cases hv : p.count < v x
    · have hstep : peakStep v lab p x = ⟨v x, some (lab x)⟩ := by
        unfold peakStep
        rw [if_pos hv]
      have hcnt : (peakStep v lab p x).count = v x := by rw [hstep]
      have htm : (peakStep v lab p x).time = some (lab x) := by rw [hstep]
      have hmax : max p.count (v x) = v x := by omega
      have hgrid : maxFrom v p.count (x :: t) = maxFrom v (v x) t := by
        simp only [maxFrom, hmax]
      rw [ih (peakStep v lab p x), hcnt, htm, hgrid]
      have hle : v x ≤ maxFrom v (v x) t := le_maxFrom v t (v x)
      rw [if_pos (show p.count < maxFrom v (v x) t by omega)]
      by_cases hxM : v x = maxFrom v (v x) t
      · rw [if_neg (show ¬v x < maxFrom v (v x) t by omega)]
        rw [List.find?_cons_of_pos _ (by simpa using hxM)]
        rfl
      · have hlt : v x < maxFrom v (v x) t := by omega
        rw [if_pos hlt]
        rw [List.find?_cons_of_neg _ (by simpa using hxM)]
        obtain ⟨y, hy, hvy⟩ := maxFrom_attained v t (v x) hlt
        have hsome : (t.find? fun z => v z == maxFrom v (v x) t).isSome :=
          List.find?_isSome.2 ⟨y, hy, by simpa using hvy⟩
        obtain ⟨b, hb⟩ := Option.isSome_iff_exists.1 hsome
        rw [hb]
        rfl
    · have hstep : peakStep v lab p x = p := by
        unfold peakStep
        rw [if_neg hv]
      have hmax : max p.count (v x) = p.count := by omega
      have hgrid : maxFrom v p.count (x :: t) = maxFrom v p.count t := by
        simp only [maxFrom, hmax]
      rw [ih (peakStep v lab p x), hstep, hgrid]
      by_cases hpc : p.count < maxFrom v p.count t
      · rw [if_pos hpc, if_pos hpc]
        have hxM : ¬v x = maxFrom v p.count t := by omega
        rw [List.find?_cons_of_neg _ (by simpa using hxM)]
      · rw [if_neg hpc, if_neg hpc]

theorem catPeak_step (c : Cat) (p : PeakStats)
    (x : (Nat × Nat) × IntervalStats) :
    catPeak c (peaksStep p x) =
      peakStep (fun y => catVal c y.2) Prod.fst (catPeak c p) x := by
  cases c <;> rfl

theorem catPeak_foldl (c : Cat) :
    ∀ (xs : List ((Nat × Nat) × IntervalStats)) (p : PeakStats),
      catPeak c (List.foldl peaksStep p xs) =
        List.foldl (peakStep (fun y => catVal c y.2) Prod.fst)
          (catPeak c p) xs := by
  intro xs
  induction xs with
  | nil => intro p; rfl
  | cons x t ih =>
    intro p
    rw [List.foldl_cons, List.foldl_cons, ih, catPeak_step]

set_option maxRecDepth 8000 in
/-- C7, counterexample: for a night with one male entry, all 48 buckets
share the female-exit maximum 0, yet the reported peak keeps the
placeholder label (the strict greater-than comparison never fires from
the initial count 0), so the earliest bucket 16:00 is not the one
reported. -/
theorem c7_counterexample :
    (computePeaks
        (fetchIntervalStats
          [⟨Gender.male, Etype.entry, 965⟩])).femalePeakExits =
      ⟨0, none⟩ ∧
    ((fetchIntervalStats [⟨Gender.male, Etype.entry, 965⟩]).all fun p =>
      p.2.femaleExits == 0) = true ∧
    ((fetchIntervalStats [⟨Gender.male, Etype.entry, 965⟩]).head?.map
      Prod.fst) = some (16, 0) ∧
    (none : Option (Nat × Nat)) ≠ some (16, 0) := by decide

/-- C7, amended: for every bucket sequence and every category, the peak
count computed by the single strict greater-than scan equals the true
maximum of that category over all buckets; when that maximum is strictly
positive the reported bucket is the earliest one attaining it, and when
it is 0 the placeholder label is reported instead of any bucket. -/
theorem c7_compute_peaks (xs : List ((Nat × Nat) × IntervalStats))
    (c : Cat) :
    (catPeak c (computePeaks xs)).count =
      maxFrom (fun y => catVal c y.2) 0 xs ∧
    (0 < maxFrom (fun y => catVal c y.2) 0 xs →
      ∃ b, (xs.find? fun y =>
          catVal c y.2 == maxFrom (fun y => catVal c y.2) 0 xs) = some b ∧
        (catPeak c (computePeaks xs)).time = some b.1) := by
  have hc : catPeak c initPeaks = initPeak := by cases c <;> rfl
  constructor
  · rw [computePeaks, catPeak_foldl, hc, peakFold_count]
    rfl
  · intro hM
    rw [computePeaks, catPeak_foldl, hc, peakFold_time]
    have h0 : initPeak.count = 0 := rfl
    rw [h0, if_pos hM]
    obtain ⟨y, hy, hvy⟩ :=
      maxFrom_attained (fun y => catVal c y.2) xs 0 hM
    have hsome : (xs.find? fun y =>
        catVal c y.2 == maxFrom (fun y => catVal c y.2) 0 xs).isSome :=
      List.find?_isSome.2 ⟨y, hy, by simpa using hvy⟩
    obtain ⟨b, hb⟩ := Option.isSome_iff_exists.1 hsome
    refine ⟨b, hb, ?_⟩
    rw [hb]
    rfl

/-- C7, witness: the spec's worked example (buckets 18:00 and 18:15 with
5 total entries, 18:30 with 3) reports count 5 at the earliest achieving
bucket 18:00. -/
theorem c7_witness :
    (catPeak Cat.tEnt (computePeaks xs7)).count =
      maxFrom (fun y => catVal Cat.tEnt y.2) 0 xs7 ∧
    ∃ b, (xs7.find? fun y =>
        catVal Cat.tEnt y.2 ==
          maxFrom (fun y => catVal Cat.tEnt y.2) 0 xs7) = some b ∧
      (catPeak Cat.tEnt (computePeaks xs7)).time = some b.1 :=
  ⟨(c7_compute_peaks xs7 Cat.tEnt).1,
    (c7_compute_peaks xs7 Cat.tEnt).2 (by decide)⟩

theorem bumpInterval_rt (iv : ResetInterval) (e : Event) (rt : Int) :
    (bumpInterval iv e rt).running_total = rt := rfl

theorem fold_resetStep_snd (es : List Event) :
    ∀ st : List (Nat × ResetInterval) × Int,
      (List.foldl resetStep st es).2 = List.foldl rtStep st.2 es := by
  induction es with
  | nil => intro st; rfl
  | cons e t ih =>
    intro st
    rw [List.foldl_cons, List.foldl_cons, ih (resetStep st e)]
    rfl

theorem map_fst_update (l : List (Nat × ResetInterval)) (k : Nat)
    (e : Event) (rt : Int) :
    ((l.map fun p =>
      if p.1 = k then (p.1, bumpInterval p.2 e rt) else p).map Prod.fst) =
      l.map Prod.fst := by
  induction l with
  | nil => rfl
  | cons p t ih => by_cases hp : p.1 = k <;> simp [hp, ih]

theorem mem_of_getLast?_eq {α : Type} :
    ∀ (l : List α) (a : α), l.getLast? = some a → a ∈ l := by
  intro l
  induction l with
  | nil =>
    intro a h
    simp at h
  | cons x t ih =>
    intro a h
    cases t with
    | nil =>
      simp only [List.getLast?_singleton, Option.some.injEq] at h
      subst h
      exact List.mem_cons_self x []
    | cons y m =>
      rw [List.getLast?_cons_cons] at h
      exact List.mem_cons_of_mem x (ih a h)

theorem pairwise_lt_le_getLast :
    ∀ L : List Nat, L.Pairwise (· < ·) →
      ∀ x ∈ L, ∀ y, L.getLast? = some y → x ≤ y := by
  intro L
  induction L with
  | nil =>
    intro _ x hx
    simp at hx
  | cons a t ih =>
    intro hp x hx y hy
    rw [List.pairwise_cons] at hp
    cases t with
    | nil =>
      simp only [List.getLast?_singleton, Option.some.injEq] at hy
      rcases List.mem_cons.1 hx with rfl | hx2
      · omega
      · simp at hx2
    | cons b m =>
      rw [List.getLast?_cons_cons] at hy
      rcases List.mem_cons.1 hx with rfl | hx2
      · have hymem : y ∈ b :: m := mem_of_getLast?_eq (b :: m) y hy
        exact Nat.le_of_lt (hp.1 y hymem)
      · exact ih hp.2 x hx2 y hy

theorem resetStep_mem (st : List (Nat × ResetInterval) × Int) (e : Event)
    (h : (st.1.any fun p => p.1 == intervalKey e) = true) :
    resetStep st e =
      (st.1.map fun p =>
        if p.1 = intervalKey e then
          (p.1, bumpInterval p.2 e (rtStep st.2 e))
        else p,
       rtStep st.2 e) := by
  simp only [resetStep]
  rw [if_pos h]

theorem resetStep_new (st : List (Nat × ResetInterval) × Int) (e : Event)
    (h : (st.1.any fun p => p.1 == intervalKey e) = false) :
    resetStep st e =
      ((st.1 ++ [(intervalKey e, zeroInterval (intervalKey e))]).map fun p =>
        if p.1 = intervalKey e then
          (p.1, bumpInterval p.2 e (rtStep st.2 e))
        else p,
       rtStep st.2 e) := by
  simp only [resetStep]
  rw [if_neg (by simp [h])]

theorem buildResetIntervals_spec (es : List Event) :
    (es.map intervalKey).Pairwise (· ≤ ·) →
      ((buildResetIntervals es).1.map Prod.fst).Pairwise (· < ·) ∧
      (∀ k ∈ (buildResetIntervals es).1.map Prod.fst,
        k ∈ es.map intervalKey) ∧
      ((buildResetIntervals es).1.getLast?.map Prod.fst =
        (es.map intervalKey).getLast?) ∧
      (((buildResetIntervals es).1.getLast?.map fun p =>
          p.2.running_total) =
        es.getLast?.map fun _ => (buildResetIntervals es).2) := by
  induction es using List.reverseRecOn with
  | nil =>
    intro _
    refine ⟨?_, ?_, ?_, ?_⟩ <;> simp [buildResetIntervals]
  | append_singleton l e ih =>
    intro hmono
    have hkeys : (l ++ [e]).map intervalKey =
        l.map intervalKey ++ [intervalKey e] := by simp
    rw [hkeys] at hmono
    obtain ⟨hm1, -, hall⟩ := List.pairwise_append.1 hmono
    have hall2 : ∀ x ∈ l.map intervalKey, x ≤ intervalKey e := fun x hx =>
      hall x hx (intervalKey e) (List.mem_cons_self _ _)
    obtain ⟨hpw, hsub, hlastk, hlastrt⟩ := ih hm1
    have hfold : buildResetIntervals (l ++ [e]) =
        resetStep (buildResetIntervals l) e := by
      simp [buildResetIntervals, List.foldl_append]
    by_cases hc :
        ((buildResetIntervals l).1.any fun p =>
          p.1 == intervalKey e) = true
    · obtain ⟨q, hqmem, hq⟩ := List.any_eq_true.1 hc
      have hqk : q.1 = intervalKey e := by simpa using hq
      have hkmem :
          intervalKey e ∈ (buildResetIntervals l).1.map Prod.fst := by
        rw [← hqk]
        exact List.mem_map_of_mem Prod.fst hqmem
      have hlne : l.map intervalKey ≠ [] := by
        intro h0
        have := hsub _ hkmem
        rw [h0] at this
        simp at this
      obtain ⟨kl, hkl⟩ : ∃ kl, (l.map intervalKey).getLast? = some kl := by
        cases h : (l.map intervalKey).getLast? with
        | none => exact absurd (List.getLast?_eq_none_iff.1 h) hlne
        | some kl => exact ⟨kl, rfl⟩
      have hkeysLast :
          ((buildResetIntervals l).1.map Prod.fst).getLast? = some kl := by
        rw [List.getLast?_map]
        exact hlastk.trans hkl
      have hk_le_kl : intervalKey e ≤ kl :=
        pairwise_lt_le_getLast _ hpw _ hkmem kl hkeysLast
      have hkl_le_k : kl ≤ intervalKey e :=
        hall2 kl (mem_of_getLast?_eq _ kl hkl)
      have hkk : intervalKey e = kl := Nat.le_antisymm hk_le_kl hkl_le_k
      obtain ⟨q0, hq0, hq0k⟩ := Option.map_eq_some'.1 (hlastk.trans hkl)
      rw [hfold, resetStep_mem _ _ hc]
      have hupd :
          (if q0.1 = intervalKey e then
            (q0.1, bumpInterval q0.2 e (rtStep (buildResetIntervals l).2 e))
          else q0) =
            (q0.1, bumpInterval q0.2 e
              (rtStep (buildResetIntervals l).2 e)) :=
        if_pos (by rw [hq0k, ← hkk])
      refine ⟨?_, ?_, ?_, ?_⟩
      · rw [map_fst_update]
        exact hpw
      · intro k2 hk2
        rw [map_fst_update] at hk2
        rw [hkeys]
        exact List.mem_append_left _ (hsub k2 hk2)
      · rw [List.getLast?_map, hq0, hkeys, List.getLast?_concat]
        simp only [Option.map_some']
        rw [hupd]
        simp [hq0k, ← hkk]
      · rw [List.getLast?_map, hq0, List.getLast?_concat]
        simp only [Option.map_some']
        rw [hupd]
        rfl
    · rw [Bool.not_eq_true] at hc
      have hcf :
          ((buildResetIntervals l).1.any fun p =>
            p.1 == intervalKey e) = false := hc
      have hnotmem :
          intervalKey e ∉ (buildResetIntervals l).1.map Prod.fst := by
        intro hmem
        obtain ⟨p, hpmem, hpk⟩ := List.mem_map.1 hmem
        have : ((buildResetIntervals l).1.any fun p =>
            p.1 == intervalKey e) = true :=
          List.any_eq_true.2 ⟨p, hpmem, by simp [hpk]⟩
        rw [this] at hcf
        exact Bool.noConfusion hcf
      have hlt : ∀ x ∈ (buildResetIntervals l).1.map Prod.fst,
          x < intervalKey e := by
        intro x hx
        have hle := hall2 x (hsub x hx)
        have hne : x ≠ intervalKey e := fun hxe => hnotmem (hxe ▸ hx)
        omega
      rw [hfold, resetStep_new _ _ hcf]
      refine ⟨?_, ?_, ?_, ?_⟩
      · rw [map_fst_update, List.map_append]
        refine List.pairwise_append.2 ⟨hpw, by simp, ?_⟩
        intro x hx y hy
        simp only [List.map_cons, List.map_nil, List.mem_singleton] at hy
        subst hy
        exact hlt x hx
      · intro k2 hk2
        rw [map_fst_update, List.map_append] at hk2
        rw [hkeys]
        rcases List.mem_append.1 hk2 with h1 | h1
        · exact List.mem_append_left _ (hsub k2 h1)
        · simp only [List.map_cons, List.map_nil, List.mem_singleton] at h1
          subst h1
          exact List.mem_append_right _ (List.mem_cons_self _ _)
      · rw [List.getLast?_map, List.getLast?_concat, hkeys,
          List.getLast?_concat]
        simp
      · rw [List.getLast?_map, List.getLast?_concat, List.getLast?_concat]
        simp
        exact bumpInterval_rt _ _ _

theorem rtStep_nonneg (rt : Int) (e : Event) (h : 0 ≤ rt) :
    0 ≤ rtStep rt e := by
  unfold rtStep
  split
  · omega
  · split
    · exact le_max_left 0 _
    · exact h

theorem resetFold_nonneg (es : List Event) :
    ∀ st : List (Nat × ResetInterval) × Int,
      0 ≤ st.2 → (∀ p ∈ st.1, 0 ≤ p.2.running_total) →
      0 ≤ (List.foldl resetStep st es).2 ∧
        ∀ p ∈ (List.foldl resetStep st es).1, 0 ≤ p.2.running_total := by
  induction es with
  | nil =>
    intro st h1 h2
    exact ⟨h1, h2⟩
  | cons e t ih =>
    intro st h1 h2
    rw [List.foldl_cons]
    apply ih (resetStep st e)
    · show 0 ≤ rtStep st.2 e
      exact rtStep_nonneg st.2 e h1
    · intro p hp
      have hp2 : p ∈ ((if (st.1.any fun q => q.1 == intervalKey e) = true
          then st.1
          else st.1 ++ [(intervalKey e, zeroInterval (intervalKey e))]).map
          fun q =>
            if q.1 = intervalKey e then
              (q.1, bumpInterval q.2 e (rtStep st.2 e))
            else q) := hp
      obtain ⟨q, hqmem, rfl⟩ := List.mem_map.1 hp2
      have hq0 : 0 ≤ q.2.running_total := by
        by_cases hany : (st.1.any fun q => q.1 == intervalKey e) = true
        · rw [if_pos hany] at hqmem
          exact h2 q hqmem
        · rw [if_neg hany] at hqmem
          rcases List.mem_append.1 hqmem with hq1 | hq1
          · exact h2 q hq1
          · simp only [List.mem_singleton] at hq1
            subst hq1
            exact le_refl 0
      by_cases hqk : q.1 = intervalKey e
      · rw [if_pos hqk]
        show 0 ≤ rtStep st.2 e
        exact rtStep_nonneg st.2 e h1
      · rw [if_neg hqk]
        exact hq0

/-- C4: in the archiving handleReset, every stored per-interval running
total is non-negative (entries increment and exits decrement clamped at
zero, so no interval ever records a negative total even when exits
transiently exceed entries), and for a time-ordered nonempty fetch the
last interval's running total equals the clamped net of all events: the
net of entries minus exits floored at 0 at every step. -/
theorem c4_reset_running_totals (es : List Event) :
    (∀ p ∈ (buildResetIntervals es).1, 0 ≤ p.2.running_total) ∧
    ((es.map Event.ts).Pairwise (· ≤ ·) → es ≠ [] →
      ((buildResetIntervals es).1.getLast?.map fun p =>
        p.2.running_total) = some (clampedNet es)) := by
  constructor
  · exact (resetFold_nonneg es ([], 0) (le_refl 0)
      (by intro p hp; simp at hp)).2
  · intro hts hne
    have hkeys : (es.map intervalKey).Pairwise (· ≤ ·) := by
      rw [List.pairwise_map] at hts ⊢
      exact hts.imp fun h =>
        Nat.mul_le_mul_right 15 (Nat.div_le_div_right h)
    obtain ⟨-, -, -, hlast⟩ := buildResetIntervals_spec es hkeys
    rw [hlast]
    have hsnd : (buildResetIntervals es).2 = clampedNet es :=
      fold_resetStep_snd es ([], 0)
    rw [hsnd]
    obtain ⟨a, ha⟩ : ∃ a, es.getLast? = some a := by
      cases h : es.getLast? with
      | none => exact absurd (List.getLast?_eq_none_iff.1 h) hne
      | some a => exact ⟨a, rfl⟩
    rw [ha]
    rfl

/-- C4, witness: the two-event archive fetch (entry then exit in the
16:00 interval) stores running total 0 in its last interval, the clamped
net of the whole list. -/
theorem c4_witness :
    ((buildResetIntervals es4).1.getLast?.map fun p =>
      p.2.running_total) = some (clampedNet es4) ∧
    clampedNet es4 = 0 :=
  ⟨(c4_reset_running_totals es4).2 (by decide) (by decide), by decide⟩

end LiarsTally
